import Mathlib

/-!
Verification of the Pose Sequence Alignment and Scoring Engine
(signphony: shared/pose_comparison.py, magic_tricks.py, translator/sign_sequencer.py).

Modelling conventions:
* Python floats are modelled as rationals.  All numeric constants of the
  source (0.5, 8.0, 0.3, ...) are exact decimal fractions, so nothing is lost.
* A NaN entry in a pose array is modelled as the value none of type Option.
* The per-frame Euclidean distance (scipy euclidean) involves a square root,
  which is irrational in general, so it cannot be written as a function into
  the rationals.  It is therefore kept as a parameter c of the definitions
  that use it, and theorems assume only properties the Euclidean distance
  enjoys: nonnegativity, being zero on a pair of equal frames, and symmetry.
* The third-party DTW libraries (dtaidistance exact DTW, fastdtw) are
  modelled as follows: the exact variant is the textbook dynamic-time-warping
  recursion over a per-frame cost (definition dtwAux below); the approximate
  fastdtw variant is a parameter fd, and theorems that depend on it assume
  only the documented tolerance of the approximation with respect to the
  exact distance.
* The scipy FFT-based resampling used by euclidean_distance on sequences of
  different lengths is kept as a parameter res; no claim depends on its
  values, only on the cases where the source raises or produces NaN.
-/

namespace Signphony

/-- A flattened pose frame: one row of num_landmarks * 3 rationals. -/
abbrev Frame := List ℚ

/-- A flattened pose sequence: a list of flattened frames. -/
abbrev Seq := List Frame

/-- A raw landmark: (x, y, confidence), as produced by pose extraction. -/
abbrev Landmark := ℚ × ℚ × ℚ

/-- A raw pose frame: the list of landmarks of one video frame. -/
abbrev RawFrame := List Landmark

/-- A raw pose sequence, shape (n_frames, num_landmarks, 3). -/
abbrev RawSeq := List RawFrame

/-- DTW_CONFIG max_distance from shared/config.py. -/
def max_distance : ℚ := 8

/-- DTW_CONFIG visibility_threshold from shared/config.py. -/
def visibility_threshold : ℚ := 1 / 2

/-- DTW_CONFIG use_fast_dtw from shared/config.py. -/
def use_fast_dtw : Bool := true

/-- LANDMARK_INDICES hands from shared/config.py. -/
def hands_indices : List ℕ := [9, 10, 13, 14, 15, 16, 17, 18, 19, 20, 21, 22]

/-- LANDMARK_INDICES upper_body from shared/config.py. -/
def upper_body_indices : List ℕ :=
  [0, 1, 2, 5, 6, 7, 8, 11, 12, 13, 14, 15, 16, 17, 18, 19, 20, 21, 22]

/-- The score conversion of compare_sign_sequences (pose_comparison.py lines
201-206): score = max(0, 100 * (1 - distance / max_distance)) capped at 100.
The maximum distance is taken as an argument, as in the spec signature. -/
def to_score (distance maxDistance : ℚ) : ℚ :=
  min 100 (max 0 (100 * (1 - distance / maxDistance)))

/-- The clamp function in the words of the spec: clamp(v, lo, hi). -/
def clamp (v lo hi : ℚ) : ℚ := max lo (min hi v)

/-- Claim C2: for every distance d and fixed maxDistance > 0, the
distance-to-score conversion equals clamp(100 * (1 - d / maxDistance), 0, 100);
it is monotonic non-increasing as a function of d and its result always lies
in the interval [0, 100]. -/
theorem to_score_clamp_monotone_bounded (d m : ℚ) (hm : 0 < m) :
    to_score d m = clamp (100 * (1 - d / m)) 0 100 ∧
    (∀ d', d ≤ d' → to_score d' m ≤ to_score d m) ∧
    0 ≤ to_score d m ∧ to_score d m ≤ 100 := by
  refine ⟨?_, ?_, ?_, ?_⟩
  · unfold to_score clamp
    simp only [min_def, max_def]
    split_ifs <;> linarith
  · intro d' hd
    unfold to_score
    have hdiv : d / m ≤ d' / m := (div_le_div_iff_of_pos_right hm).mpr hd
    have : 100 * (1 - d' / m) ≤ 100 * (1 - d / m) := by nlinarith
    exact min_le_min le_rfl (max_le_max le_rfl this)
  · exact le_min (by norm_num) (le_max_left 0 _)
  · exact min_le_left 100 _

/-- Witness for claim C2, at distance 3, maximum distance 8, second distance 5. -/
theorem to_score_clamp_monotone_bounded_w :
    to_score 3 8 = clamp (100 * (1 - 3 / 8)) 0 100 ∧
    to_score 5 8 ≤ to_score 3 8 := by
  have h := to_score_clamp_monotone_bounded 3 8 (by norm_num)
  exact ⟨h.1, h.2.1 5 (by norm_num)⟩

/-- Add a rational to an optional rational (none plays the role of an
unreachable or infinite dynamic-programming entry). -/
def optAdd (q : ℚ) : Option ℚ → Option ℚ
  | none => none
  | some x => some (q + x)

/-- Minimum of two optional rationals, none being the neutral element. -/
def optMin : Option ℚ → Option ℚ → Option ℚ
  | none, y => y
  | some x, none => some x
  | some x, some y => some (min x y)

/-- Classic dynamic-time-warping cost between two flattened sequences with
per-frame cost c: minimum over all warping paths of the summed per-step
costs.  This models the exact DTW distance of the dtaidistance library as
described in the spec (section 4.3, per-step cost = Euclidean distance,
no band constraint since DTW_CONFIG window_size is None). -/
def dtwAux (c : Frame → Frame → ℚ) : Seq → Seq → Option ℚ
  | [], [] => some 0
  | [], _ :: _ => none
  | _ :: _, [] => none
  | a :: A, b :: B =>
      optAdd (c a b)
        (optMin (dtwAux c A B) (optMin (dtwAux c (a :: A) B) (dtwAux c A (b :: B))))
termination_by A B => A.length + B.length
decreasing_by all_goals simp_arith

/-- The exact DTW distance as a rational; for two nonempty sequences the
dynamic program always produces a value (dtwAux is some). -/
def exact_dtw (c : Frame → Frame → ℚ) (A B : Seq) : ℚ :=
  (dtwAux c A B).getD 0

/-- dtw_distance from pose_comparison.py lines 114-150.  The dtaidistance
library is assumed importable (the normal configuration); then a degenerate
input returns the configured max-distance sentinel, and otherwise the fast
approximate distance fd (fastdtw, kept as a parameter) or the exact DTW
distance is used depending on use_fast. -/
def dtw_distance (c : Frame → Frame → ℚ) (fd : Seq → Seq → ℚ) (useFast : Bool)
    (ref_poses user_poses : Seq) : ℚ :=
  if ref_poses.length = 0 ∨ user_poses.length = 0 then max_distance
  else if useFast then fd ref_poses user_poses
  else exact_dtw c ref_poses user_poses

/-- euclidean_distance from pose_comparison.py lines 82-111: resample the
candidate to the reference frame count, then average the per-frame costs.
The result none models a NaN value or a raised exception: with an empty
reference the list of per-frame distances is empty and np.mean of an empty
list is NaN; with an empty candidate and a nonempty reference the scipy FFT
resampling of an empty signal raises.  The resampling function res for
nonempty sequences of a different length is kept as an abstract parameter
(scipy FFT-based interpolative resampling is not rational arithmetic);
no claim depends on its values. -/
def euclidean_distance (c : Frame → Frame → ℚ) (res : Seq → ℕ → Seq)
    (ref_poses user_poses : Seq) : Option ℚ :=
  if ref_poses.length = 0 then none
  else if user_poses.length = 0 then none
  else
    let user_resampled :=
      if user_poses.length = ref_poses.length then user_poses
      else res user_poses ref_poses.length
    some ((List.zipWith c ref_poses user_resampled).sum / ref_poses.length)

/-- Equation lemma: dtwAux on two nonempty sequences. -/
theorem dtwAux_cons (c : Frame → Frame → ℚ) (a b : Frame) (A B : Seq) :
    dtwAux c (a :: A) (b :: B) =
      optAdd (c a b)
        (optMin (dtwAux c A B) (optMin (dtwAux c (a :: A) B) (dtwAux c A (b :: B)))) := by
  rw [dtwAux]

/-- A lower bound on both arguments of optMin is a lower bound on the result. -/
theorem optMin_le_bound {q : ℚ} {x y : Option ℚ}
    (hx : ∀ a, x = some a → q ≤ a) (hy : ∀ a, y = some a → q ≤ a) :
    ∀ a, optMin x y = some a → q ≤ a := by
  cases x with
  | none =>
      cases y with
      | none => intro a h; simp [optMin] at h
      | some b =>
          intro a h; simp [optMin] at h; subst h; exact hy b rfl
  | some b =>
      cases y with
      | none => intro a h; simp [optMin] at h; subst h; exact hx b rfl
      | some d =>
          intro a h; simp [optMin] at h; subst h
          exact le_min (hx b rfl) (hy d rfl)

/-- Every defined DTW cost is nonnegative when the per-frame cost is. -/
theorem dtwAux_nonneg (c : Frame → Frame → ℚ) (hc : ∀ u v, 0 ≤ c u v) :
    ∀ n A B, A.length + B.length ≤ n → ∀ x, dtwAux c A B = some x → 0 ≤ x := by
  intro n
  induction n with
  | zero =>
      intro A B hlen x hx
      match A, B with
      | [], [] => simp [dtwAux] at hx; linarith [hx]
      | [], _ :: _ => simp at hlen
      | _ :: _, _ => simp at hlen
  | succ n ih =>
      intro A B hlen x hx
      match A, B with
      | [], [] => simp [dtwAux] at hx; linarith [hx]
      | [], b :: B => simp [dtwAux] at hx
      | a :: A, [] => simp [dtwAux] at hx
      | a :: A, b :: B =>
          rw [dtwAux_cons] at hx
          have h1 : ∀ z, dtwAux c A B = some z → 0 ≤ z := by
            intro z hz; exact ih A B (by simp at hlen ⊢; omega) z hz
          have h2 : ∀ z, dtwAux c (a :: A) B = some z → 0 ≤ z := by
            intro z hz; exact ih (a :: A) B (by simp at hlen ⊢; omega) z hz
          have h3 : ∀ z, dtwAux c A (b :: B) = some z → 0 ≤ z := by
            intro z hz; exact ih A (b :: B) (by simp at hlen ⊢; omega) z hz
          have hmin := optMin_le_bound h1 (optMin_le_bound h2 h3)
          revert hx
          match hM : optMin (dtwAux c A B)
              (optMin (dtwAux c (a :: A) B) (dtwAux c A (b :: B))) with
          | none => intro hx; simp [optAdd] at hx
          | some y =>
              intro hx
              simp [optAdd] at hx
              have hy : 0 ≤ y := hmin y hM
              have hcab := hc a b
              linarith [hx]

/-- The DTW cost of a sequence against itself is zero: the diagonal path has
cost zero and no path has negative cost. -/
theorem dtwAux_self (c : Frame → Frame → ℚ) (hc0 : ∀ u, c u u = 0)
    (hc : ∀ u v, 0 ≤ c u v) : ∀ A, dtwAux c A A = some 0 := by
  intro A
  induction A with
  | nil => simp [dtwAux]
  | cons a A ih =>
      rw [dtwAux_cons, ih]
      have hbound := optMin_le_bound (q := 0)
        (fun z hz => dtwAux_nonneg c hc ((a :: A).length + A.length) (a :: A) A le_rfl z hz)
        (fun z hz => dtwAux_nonneg c hc (A.length + (a :: A).length) A (a :: A) le_rfl z hz)
      match hM : optMin (dtwAux c (a :: A) A) (dtwAux c A (a :: A)) with
      | none => simp [optMin, optAdd, hc0 a]
      | some y =>
          have hy : 0 ≤ y := by
            revert hM
            match h4 : dtwAux c (a :: A) A, h5 : dtwAux c A (a :: A) with
            | none, none => intro h; simp [optMin] at h
            | none, some z =>
                intro h; simp [optMin] at h; subst h
                exact dtwAux_nonneg c hc (A.length + (a :: A).length) A (a :: A) le_rfl z h5
            | some z, none =>
                intro h; simp [optMin] at h; subst h
                exact dtwAux_nonneg c hc ((a :: A).length + A.length) (a :: A) A le_rfl z h4
            | some z, some w =>
                intro h; simp [optMin] at h; subst h
                exact le_min
                  (dtwAux_nonneg c hc ((a :: A).length + A.length) (a :: A) A le_rfl z h4)
                  (dtwAux_nonneg c hc (A.length + (a :: A).length) A (a :: A) le_rfl w h5)
          simp [optMin, optAdd, hc0 a, min_eq_left hy]

/-- optMin is commutative. -/
theorem optMin_comm (x y : Option ℚ) : optMin x y = optMin y x := by
  cases x <;> cases y <;> simp [optMin, min_comm]

/-- The DTW cost is symmetric when the per-frame cost is. -/
theorem dtwAux_symm (c : Frame → Frame → ℚ) (hsym : ∀ u v, c u v = c v u) :
    ∀ n A B, A.length + B.length ≤ n → dtwAux c A B = dtwAux c B A := by
  intro n
  induction n with
  | zero =>
      intro A B hlen
      match A, B with
      | [], [] => rfl
      | [], _ :: _ => simp at hlen
      | _ :: _, _ => simp at hlen
  | succ n ih =>
      intro A B hlen
      match A, B with
      | [], [] => rfl
      | [], b :: B => simp [dtwAux]
      | a :: A, [] => simp [dtwAux]
      | a :: A, b :: B =>
          rw [dtwAux_cons, dtwAux_cons, hsym a b]
          rw [ih A B (by simp at hlen ⊢; omega),
            ih (a :: A) B (by simp at hlen ⊢; omega),
            ih A (b :: B) (by simp at hlen ⊢; omega)]
          rw [optMin_comm (dtwAux c B (a :: A)) (dtwAux c (b :: B) A)]

/-- Claim C7: for every pair of flattened pose sequences A and B, the exact
(non-fast) DTW variant of the distance operation is symmetric:
distance(A, B) equals distance(B, A).  The per-frame cost c is assumed
symmetric, a property the Euclidean distance has. -/
theorem dtw_distance_exact_symm (c : Frame → Frame → ℚ) (fd : Seq → Seq → ℚ)
    (A B : Seq) (hsym : ∀ u v, c u v = c v u) :
    dtw_distance c fd false A B = dtw_distance c fd false B A := by
  unfold dtw_distance
  by_cases h : A.length = 0 ∨ B.length = 0
  · rw [if_pos h, if_pos (Or.symm h)]
  · rw [if_neg h, if_neg (fun hh => h (Or.symm hh))]
    simp only [Bool.false_eq_true, if_false]
    unfold exact_dtw
    rw [dtwAux_symm c hsym (A.length + B.length) A B le_rfl]

/-- A concrete per-frame cost used to instantiate witnesses: the squared
Euclidean distance between two flattened frames.  It is rational-valued and
satisfies all the properties the theorems assume of the per-frame cost
(nonnegativity, zero on equal frames, symmetry). -/
def sq_euclid (u v : Frame) : ℚ :=
  (List.zipWith (fun a b => (a - b) ^ 2) u v).sum

/-- sq_euclid vanishes on a pair of equal frames. -/
theorem sq_euclid_self (u : Frame) : sq_euclid u u = 0 := by
  induction u with
  | nil => rfl
  | cons a u ih =>
      have h : sq_euclid (a :: u) (a :: u) = (a - a) ^ 2 + sq_euclid u u := by
        simp [sq_euclid, List.zipWith]
      rw [h, ih]; ring

/-- sq_euclid is nonnegative. -/
theorem sq_euclid_nonneg (u v : Frame) : 0 ≤ sq_euclid u v := by
  induction u generalizing v with
  | nil => simp [sq_euclid]
  | cons a u ih =>
      cases v with
      | nil => simp [sq_euclid]
      | cons b v =>
          have hs := sq_nonneg (a - b)
          have := ih v
          simp [sq_euclid, List.zipWith] at this ⊢
          linarith

/-- sq_euclid is symmetric. -/
theorem sq_euclid_symm (u v : Frame) : sq_euclid u v = sq_euclid v u := by
  induction u generalizing v with
  | nil => cases v <;> rfl
  | cons a u ih =>
      cases v with
      | nil => rfl
      | cons b v =>
          simp [sq_euclid, List.zipWith] at ih ⊢
          rw [ih v]
          ring

/-- Witness for claim C7: exact DTW symmetry at the concrete sequences
[[1], [2]] and [[3]], with the squared-Euclidean per-frame cost. -/
theorem dtw_distance_exact_symm_w :
    dtw_distance sq_euclid (exact_dtw sq_euclid) false [[(1 : ℚ)], [2]] [[3]] =
      dtw_distance sq_euclid (exact_dtw sq_euclid) false [[3]] [[(1 : ℚ)], [2]] :=
  dtw_distance_exact_symm sq_euclid (exact_dtw sq_euclid) [[(1 : ℚ)], [2]] [[3]]
    sq_euclid_symm

/-- An identity resampling function, used only to instantiate closed witness
and counterexample statements; no proved result depends on its values. -/
def resample_id : Seq → ℕ → Seq := fun s _ => s

/-- filter_poses_by_visibility from pose_comparison.py lines 29-48: a landmark
whose confidence (third coordinate) is below the threshold is replaced by NaN,
modelled as none. -/
def filter_poses_by_visibility (thr : ℚ) (poses : RawSeq) :
    List (List (Option Landmark)) :=
  poses.map (fun fr => fr.map (fun l => if l.2.2 < thr then none else some l))

/-- flatten_poses from pose_comparison.py lines 14-26, applied to a filtered
sequence: each landmark contributes its three coordinates in order, a
filtered-out landmark contributing three NaN entries. -/
def flatten_poses (poses : List (List (Option Landmark))) : List (List (Option ℚ)) :=
  poses.map (fun fr =>
    fr.flatMap (fun l =>
      match l with
      | none => [none, none, none]
      | some (x, y, z) => [some x, some y, some z]))

/-- focus_on_body_part from pose_comparison.py lines 209-231: landmarks whose
index is not in the group are zeroed, the rest are copied (the idx <
poses.shape check of the source is implicit: enumeration covers exactly the
existing indices). -/
def focus_on_body_part (group : List ℕ) (poses : RawSeq) : RawSeq :=
  poses.map (fun fr => fr.enum.map (fun p => if p.1 ∈ group then p.2 else (0, 0, 0)))

/-- Minimum of a list of rationals (np.min; 0 for an empty list, which the
source never queries on the paths modelled here). -/
def listMin : List ℚ → ℚ
  | [] => 0
  | x :: xs => xs.foldl min x

/-- Maximum of a list of rationals (np.max; 0 for an empty list). -/
def listMax : List ℚ → ℚ
  | [] => 0
  | x :: xs => xs.foldl max x

/-- Column j of a row-major matrix of optional values. -/
def colOf (M : List (List (Option ℚ))) (j : ℕ) : List (Option ℚ) :=
  M.map (fun r => r.getD j none)

/-- The value normalize_poses uses to replace NaN entries of a column: the
np.nanmean of the column, i.e. the mean of its valid entries, or 0 when the
column has no valid entry (nanmean is NaN exactly then). -/
def fill_value (col : List (Option ℚ)) : ℚ :=
  let valid := col.filterMap id
  if valid.length = 0 then 0 else valid.sum / valid.length

/-- The per-entry transformation normalize_poses applies to a value of a
column: replace NaN by the fill value, then rescale by the column minimum and
maximum of the filled column when max > min. -/
def scale_value (col : List (Option ℚ)) (v : Option ℚ) : ℚ :=
  let f := fill_value col
  let filled := col.map (fun w => w.getD f)
  let lo := listMin filled
  let hi := listMax filled
  let x := v.getD f
  if lo < hi then (x - lo) / (hi - lo) else x

/-- normalize_poses from pose_comparison.py lines 51-79.  The source iterates
over the columns of a rectangular numpy array, first replacing NaN entries by
the column nanmean (or 0), then rescaling each column to [0, 1] by its min
and max when max > min.  Here the same column statistics are applied
pointwise, row by row, which agrees with the source on rectangular input and
keeps the frame count of the output equal to the input by construction. -/
def normalize_poses (M : List (List (Option ℚ))) : List (List ℚ) :=
  M.map (fun r => r.enum.map (fun p => scale_value (colOf M p.1) p.2))

/-- The preprocessing chain of compare_sign_sequences (pose_comparison.py
lines 178-193): optionally focus on the hands, filter by visibility, flatten,
normalize. -/
def preprocess (visibilityThr : ℚ) (useHandFocus : Bool) (P : RawSeq) : Seq :=
  normalize_poses (flatten_poses (filter_poses_by_visibility visibilityThr
    (if useHandFocus then focus_on_body_part hands_indices P else P)))

/-- compare_sign_sequences from pose_comparison.py lines 153-206: validate,
then preprocess both sequences, compute the distance for the requested
method, and convert it to a score.  The result none propagates the NaN or
exception of euclidean_distance. -/
def compare_sign_sequences (c : Frame → Frame → ℚ) (fd : Seq → Seq → ℚ)
    (res : Seq → ℕ → Seq) (visibilityThr : ℚ) (method : String)
    (useHandFocus : Bool) (reference_poses user_poses : RawSeq) : Option ℚ :=
  if reference_poses.length = 0 ∨ user_poses.length = 0 then some 0
  else
    (if method = "dtw" then
        some (dtw_distance c fd use_fast_dtw
          (preprocess visibilityThr useHandFocus reference_poses)
          (preprocess visibilityThr useHandFocus user_poses))
      else
        euclidean_distance c res
          (preprocess visibilityThr useHandFocus reference_poses)
          (preprocess visibilityThr useHandFocus user_poses)).map
      (fun q => to_score q max_distance)

/-- The weighted_score entry of calculate_accuracy_metrics (pose_comparison.py
lines 272-277): 0.5 hand-focused DTW + 0.3 upper-body DTW + 0.2 full-body
DTW. -/
def weighted_score (c : Frame → Frame → ℚ) (fd : Seq → Seq → ℚ)
    (res : Seq → ℕ → Seq) (reference_poses user_poses : RawSeq) : Option ℚ :=
  match compare_sign_sequences c fd res visibility_threshold "dtw" true
      reference_poses user_poses,
    compare_sign_sequences c fd res visibility_threshold "dtw" false
      (focus_on_body_part upper_body_indices reference_poses)
      (focus_on_body_part upper_body_indices user_poses),
    compare_sign_sequences c fd res visibility_threshold "dtw" false
      reference_poses user_poses with
  | some h, some u, some d => some (1 / 2 * h + 3 / 10 * u + 1 / 5 * d)
  | _, _, _ => none

/-- calculate_accuracy_metrics from pose_comparison.py lines 234-279, as the
association list of the metrics dictionary in insertion order. -/
def calculate_accuracy_metrics (c : Frame → Frame → ℚ) (fd : Seq → Seq → ℚ)
    (res : Seq → ℕ → Seq) (reference_poses user_poses : RawSeq) :
    List (String × Option ℚ) :=
  [("dtw_score",
      compare_sign_sequences c fd res visibility_threshold "dtw" false
        reference_poses user_poses),
   ("hand_dtw_score",
      compare_sign_sequences c fd res visibility_threshold "dtw" true
        reference_poses user_poses),
   ("upper_body_score",
      compare_sign_sequences c fd res visibility_threshold "dtw" false
        (focus_on_body_part upper_body_indices reference_poses)
        (focus_on_body_part upper_body_indices user_poses)),
   ("euclidean_score",
      compare_sign_sequences c fd res visibility_threshold "euclidean" false
        reference_poses user_poses),
   ("frame_count_ratio",
      some ((user_poses.length : ℚ) / ((max 1 reference_poses.length : ℕ) : ℚ))),
   ("weighted_score", weighted_score c fd res reference_poses user_poses)]

/-- Counterexample for claim C3: in euclidean mode an empty reference does
not produce the max-distance sentinel; the mean over an empty list of
per-frame distances is NaN (modelled none). -/
theorem euclidean_empty_not_sentinel :
    euclidean_distance sq_euclid resample_id [] [[(1 : ℚ)]] = none ∧
    euclidean_distance sq_euclid resample_id [] [[(1 : ℚ)]] ≠ some max_distance := by
  constructor
  · rfl
  · intro h
    simp [euclidean_distance] at h

/-- Claim C3, amended: for every pair of flattened pose sequences, if the
reference or the candidate has length 0 then the dtw mode of the distance
operation returns the configured max-distance sentinel (default 8.0), while
the euclidean mode does not: it yields NaN (empty reference) or raises in
resampling (empty candidate), both modelled as none. -/
theorem degenerate_distance_modes (c : Frame → Frame → ℚ) (fd : Seq → Seq → ℚ)
    (res : Seq → ℕ → Seq) (useFast : Bool) (ref user : Seq)
    (h : ref.length = 0 ∨ user.length = 0) :
    dtw_distance c fd useFast ref user = max_distance ∧
    euclidean_distance c res ref user = none := by
  constructor
  · unfold dtw_distance
    rw [if_pos h]
  · unfold euclidean_distance
    rcases h with h | h
    · rw [if_pos h]
    · by_cases h0 : ref.length = 0
      · rw [if_pos h0]
      · rw [if_neg h0, if_pos h]

/-- Witness for the amended claim C3, at the empty reference and a one-frame
candidate. -/
theorem degenerate_distance_modes_w :
    dtw_distance sq_euclid (exact_dtw sq_euclid) true [] [[(1 : ℚ)]] = max_distance ∧
    euclidean_distance sq_euclid resample_id [] [[(1 : ℚ)]] = none :=
  degenerate_distance_modes sq_euclid (exact_dtw sq_euclid) resample_id true
    [] [[(1 : ℚ)]] (Or.inl rfl)

/-- Preprocessing keeps the frame count: every stage maps over frames. -/
theorem preprocess_length (thr : ℚ) (hf : Bool) (P : RawSeq) :
    (preprocess thr hf P).length = P.length := by
  unfold preprocess normalize_poses flatten_poses filter_poses_by_visibility
    focus_on_body_part
  cases hf <;> simp

/-- The body-part projection keeps the frame count. -/
theorem focus_length (g : List ℕ) (P : RawSeq) :
    (focus_on_body_part g P).length = P.length := by
  unfold focus_on_body_part; simp

/-- The exact DTW distance is nonnegative when the per-frame cost is. -/
theorem exact_dtw_nonneg (c : Frame → Frame → ℚ) (hc : ∀ u v, 0 ≤ c u v)
    (A B : Seq) : 0 ≤ exact_dtw c A B := by
  unfold exact_dtw
  match h : dtwAux c A B with
  | none => simp
  | some x => simpa using dtwAux_nonneg c hc (A.length + B.length) A B le_rfl x h

/-- The exact DTW distance of a sequence against itself is zero. -/
theorem exact_dtw_self (c : Frame → Frame → ℚ) (hc0 : ∀ u, c u u = 0)
    (hc : ∀ u v, 0 ≤ c u v) (A : Seq) : exact_dtw c A A = 0 := by
  unfold exact_dtw
  rw [dtwAux_self c hc0 hc A]
  rfl

/-- Comparing a nonempty raw sequence against itself in dtw mode yields the
perfect score 100: both sides preprocess to the same flattened sequence, the
exact DTW distance of a sequence against itself is 0, and the fastdtw
approximation is within its documented tolerance of the exact distance, so
it is 0 as well. -/
theorem compare_self_dtw (c : Frame → Frame → ℚ) (fd : Seq → Seq → ℚ)
    (res : Seq → ℕ → Seq) (hc0 : ∀ u, c u u = 0) (hc : ∀ u v, 0 ≤ c u v)
    (hfd : ∀ A B, |fd A B - exact_dtw c A B| ≤ exact_dtw c A B / 10)
    (hf : Bool) (A : RawSeq) (hA : A.length ≠ 0) :
    compare_sign_sequences c fd res visibility_threshold "dtw" hf A A = some 100 := by
  unfold compare_sign_sequences
  rw [if_neg (by simp [hA]), if_pos rfl]
  have hNlen : (preprocess visibility_threshold hf A).length ≠ 0 := by
    rw [preprocess_length]; exact hA
  have hdist : dtw_distance c fd use_fast_dtw (preprocess visibility_threshold hf A)
      (preprocess visibility_threshold hf A) = 0 := by
    unfold dtw_distance
    rw [if_neg (by simp [hNlen])]
    have hself := exact_dtw_self c hc0 hc (preprocess visibility_threshold hf A)
    have htol := hfd (preprocess visibility_threshold hf A)
      (preprocess visibility_threshold hf A)
    rw [hself] at htol
    have : fd (preprocess visibility_threshold hf A)
        (preprocess visibility_threshold hf A) = 0 := by simpa using htol
    simp [use_fast_dtw, this]
  rw [hdist]
  simp [to_score, max_distance]

/-- Claim C1: for every non-empty pose sequence S, the weighted multi-metric
comparison of S against itself under the default weights (0.5 hand-focused
DTW, 0.3 upper-body DTW, 0.2 full-body DTW) yields a weighted score of at
least 95 (in fact exactly 100). -/
theorem weighted_score_self_ge (c : Frame → Frame → ℚ) (fd : Seq → Seq → ℚ)
    (res : Seq → ℕ → Seq) (hc0 : ∀ u, c u u = 0) (hc : ∀ u v, 0 ≤ c u v)
    (hfd : ∀ A B, |fd A B - exact_dtw c A B| ≤ exact_dtw c A B / 10)
    (S : RawSeq) (hS : S ≠ []) :
    ∃ w, weighted_score c fd res S S = some w ∧ 95 ≤ w := by
  have hlen : S.length ≠ 0 := by
    intro h; exact hS (List.length_eq_zero.mp h)
  have h1 := compare_self_dtw c fd res hc0 hc hfd true S hlen
  have h2 := compare_self_dtw c fd res hc0 hc hfd false S hlen
  have hu := compare_self_dtw c fd res hc0 hc hfd false
    (focus_on_body_part upper_body_indices S)
    (by rw [focus_length]; exact hlen)
  refine ⟨100, ?_, by norm_num⟩
  unfold weighted_score
  rw [h1, h2, hu]
  show some (1 / 2 * (100 : ℚ) + 3 / 10 * 100 + 1 / 5 * 100) = some 100
  norm_num

/-- Witness for claim C1, at a single-frame, 33-landmark pose sequence, with
the squared-Euclidean per-frame cost and the exact DTW distance standing for
the approximate one (which trivially meets the tolerance assumption). -/
theorem weighted_score_self_ge_w :
    ∃ w, weighted_score sq_euclid (exact_dtw sq_euclid) resample_id
        [List.replicate 33 ((1 : ℚ) / 2, (1 : ℚ) / 2, (1 : ℚ))]
        [List.replicate 33 ((1 : ℚ) / 2, (1 : ℚ) / 2, (1 : ℚ))] = some w ∧ 95 ≤ w :=
  weighted_score_self_ge sq_euclid (exact_dtw sq_euclid) resample_id
    sq_euclid_self sq_euclid_nonneg
    (fun A B => by
      rw [sub_self, abs_zero]
      exact div_nonneg (exact_dtw_nonneg sq_euclid sq_euclid_nonneg A B) (by norm_num))
    [List.replicate 33 ((1 : ℚ) / 2, (1 : ℚ) / 2, (1 : ℚ))]
    (List.cons_ne_nil _ _)

/-- Counterexample for claim C4: at an empty reference, the metrics
dictionary of calculate_accuracy_metrics has exactly the six keys of the
source and none of them is a degenerate flag; the weighted score is 0 but no
explicit degenerate marker exists in the result. -/
theorem no_degenerate_flag :
    (calculate_accuracy_metrics sq_euclid (exact_dtw sq_euclid) resample_id
        [] [[((1 : ℚ) / 2, (1 : ℚ) / 2, (1 : ℚ))]]).map Prod.fst =
      ["dtw_score", "hand_dtw_score", "upper_body_score", "euclidean_score",
        "frame_count_ratio", "weighted_score"] ∧
    "degenerate" ∉ (calculate_accuracy_metrics sq_euclid (exact_dtw sq_euclid)
        resample_id [] [[((1 : ℚ) / 2, (1 : ℚ) / 2, (1 : ℚ))]]).map Prod.fst ∧
    weighted_score sq_euclid (exact_dtw sq_euclid) resample_id
        [] [[((1 : ℚ) / 2, (1 : ℚ) / 2, (1 : ℚ))]] = some 0 := by
  refine ⟨rfl, by decide, ?_⟩
  simp [weighted_score, compare_sign_sequences, focus_on_body_part]

/-- Claim C4, amended: for every pair of inputs to the weighted multi-metric
scoring with an empty reference or candidate, the result is weighted score 0
and no distance computation is performed (the result is the same for every
distance, approximation and resampling function); the source however emits
no explicit degenerate flag (see the counterexample). -/
theorem weighted_score_degenerate (c : Frame → Frame → ℚ) (fd : Seq → Seq → ℚ)
    (res : Seq → ℕ → Seq) (ref user : RawSeq)
    (h : ref.length = 0 ∨ user.length = 0) :
    weighted_score c fd res ref user = some 0 ∧
    (∀ method hf, compare_sign_sequences c fd res visibility_threshold
      method hf ref user = some 0) := by
  have hcomp : ∀ method hf, compare_sign_sequences c fd res visibility_threshold
      method hf ref user = some 0 := by
    intro method hf
    unfold compare_sign_sequences
    rw [if_pos h]
  refine ⟨?_, hcomp⟩
  have hfoc : (focus_on_body_part upper_body_indices ref).length = 0 ∨
      (focus_on_body_part upper_body_indices user).length = 0 := by
    rw [focus_length, focus_length]; exact h
  have hcompu : compare_sign_sequences c fd res visibility_threshold "dtw" false
      (focus_on_body_part upper_body_indices ref)
      (focus_on_body_part upper_body_indices user) = some 0 := by
    unfold compare_sign_sequences
    rw [if_pos hfoc]
  unfold weighted_score
  rw [hcomp "dtw" true, hcomp "dtw" false, hcompu]
  show some (1 / 2 * (0 : ℚ) + 3 / 10 * 0 + 1 / 5 * 0) = some 0
  norm_num

/-- Witness for the amended claim C4, at an empty reference and a one-frame
candidate. -/
theorem weighted_score_degenerate_w :
    weighted_score sq_euclid (exact_dtw sq_euclid) resample_id
        [] [[((1 : ℚ), (1 : ℚ), (1 : ℚ))]] = some 0 ∧
    (∀ method hf, compare_sign_sequences sq_euclid (exact_dtw sq_euclid)
      resample_id visibility_threshold method hf
      [] [[((1 : ℚ), (1 : ℚ), (1 : ℚ))]] = some 0) :=
  weighted_score_degenerate sq_euclid (exact_dtw sq_euclid) resample_id
    [] [[((1 : ℚ), (1 : ℚ), (1 : ℚ))]] (Or.inl rfl)

/-- One coordinate dimension of the normalization, in the words of the spec
(section 4.1): replace invalid values with the mean of the valid values in
the dimension (0 if none valid), then linearly rescale the dimension to
[0, 1] using its min and max; if min equals max, leave the values unscaled. -/
def normalize_dimension_spec (col : List (Option ℚ)) : List ℚ :=
  let mean := fill_value col
  let filled := col.map (fun w => w.getD mean)
  if listMin filled = listMax filled then filled
  else filled.map (fun x => (x - listMin filled) / (listMax filled - listMin filled))

/-- Folding min starting from a value stays below it. -/
theorem foldl_min_le_init (l : List ℚ) : ∀ a, l.foldl min a ≤ a := by
  induction l with
  | nil => intro a; exact le_rfl
  | cons x l ih =>
      intro a
      calc (x :: l).foldl min a = l.foldl min (min a x) := rfl
        _ ≤ min a x := ih (min a x)
        _ ≤ a := min_le_left a x

/-- Folding max starting from a value stays above it. -/
theorem le_foldl_max_init (l : List ℚ) : ∀ a, a ≤ l.foldl max a := by
  induction l with
  | nil => intro a; exact le_rfl
  | cons x l ih =>
      intro a
      calc a ≤ max a x := le_max_left a x
        _ ≤ l.foldl max (max a x) := ih (max a x)
        _ = (x :: l).foldl max a := rfl

/-- The list minimum is at most the list maximum. -/
theorem listMin_le_listMax (l : List ℚ) : listMin l ≤ listMax l := by
  cases l with
  | nil => exact le_rfl
  | cons x xs =>
      calc listMin (x :: xs) = xs.foldl min x := rfl
        _ ≤ x := foldl_min_le_init xs x
        _ ≤ xs.foldl max x := le_foldl_max_init xs x
        _ = listMax (x :: xs) := rfl

/-- Mapping the per-entry transformation of normalize_poses over a column is
the spec description of normalizing one dimension. -/
theorem scale_value_map (col : List (Option ℚ)) :
    col.map (scale_value col) = normalize_dimension_spec col := by
  unfold scale_value normalize_dimension_spec
  set m := fill_value col with hm
  set filled := List.map (fun w => Option.getD w m) col with hfill
  rcases eq_or_lt_of_le (listMin_le_listMax filled) with h | h
  · rw [if_pos h]
    have hnot : ¬ listMin filled < listMax filled := by rw [h]; exact lt_irrefl _
    simp only [hnot, if_false]
  · rw [if_neg (ne_of_lt h)]
    simp only [h, if_true]
    rw [List.map_map]
    rfl

/-- Element access through the enumeration used by normalize_poses. -/
theorem enumFrom_map_getD (f : ℕ × Option ℚ → ℚ) :
    ∀ (r : List (Option ℚ)) (n j : ℕ), j < r.length →
      ((List.enumFrom n r).map f).getD j 0 = f (n + j, r.getD j none) := by
  intro r
  induction r with
  | nil => intro n j hj; simp at hj
  | cons a r ih =>
      intro n j hj
      cases j with
      | zero =>
          show f (n, a) = f (n + 0, a)
          rw [Nat.add_zero]
      | succ j =>
          have hj' : j < r.length := by
            simp only [List.length_cons] at hj
            omega
          have harith : n + 1 + j = n + (j + 1) := by omega
          show ((List.enumFrom (n + 1) r).map f).getD j 0 = f (n + (j + 1), r.getD j none)
          rw [ih (n + 1) j hj', harith]

/-- The second component of an enumFrom entry is a list member. -/
theorem snd_mem_of_mem_enumFrom {α : Type} :
    ∀ (l : List α) (n : ℕ) (p : ℕ × α), p ∈ List.enumFrom n l → p.2 ∈ l := by
  intro l
  induction l with
  | nil =>
      intro n p hp
      exact absurd hp (List.not_mem_nil p)
  | cons a l ih =>
      intro n p hp
      have hp' : p ∈ (n, a) :: List.enumFrom (n + 1) l := hp
      rcases List.mem_cons.mp hp' with hp2 | hp2
      · subst hp2; exact List.mem_cons_self a l
      · exact List.mem_cons_of_mem a (ih (n + 1) p hp2)

/-- filterMap id of an all-none list is empty. -/
theorem filterMap_id_all_none (l : List (Option ℚ)) (h : ∀ x ∈ l, x = none) :
    l.filterMap id = [] := by
  induction l with
  | nil => rfl
  | cons a l ih =>
      have ha := h a (List.mem_cons_self a l)
      subst ha
      show List.filterMap id l = []
      exact ih (fun x hx => h x (List.mem_cons_of_mem _ hx))

/-- Folding min over a list of copies of the initial value is that value. -/
theorem foldl_min_all_eq (l : List ℚ) (a : ℚ) (h : ∀ x ∈ l, x = a) :
    l.foldl min a = a := by
  induction l with
  | nil => rfl
  | cons x l ih =>
      have hx := h x (List.mem_cons_self x l)
      subst hx
      show l.foldl min (min x x) = x
      rw [min_self]
      exact ih (fun y hy => h y (List.mem_cons_of_mem _ hy))

/-- Folding max over a list of copies of the initial value is that value. -/
theorem foldl_max_all_eq (l : List ℚ) (a : ℚ) (h : ∀ x ∈ l, x = a) :
    l.foldl max a = a := by
  induction l with
  | nil => rfl
  | cons x l ih =>
      have hx := h x (List.mem_cons_self x l)
      subst hx
      show l.foldl max (max x x) = x
      rw [max_self]
      exact ih (fun y hy => h y (List.mem_cons_of_mem _ hy))

/-- getD over an all-none list of optional values is none. -/
theorem getD_all_none (l : List (Option ℚ)) (h : ∀ x ∈ l, x = none) (j : ℕ) :
    l.getD j none = none := by
  induction l generalizing j with
  | nil => rfl
  | cons a l ih =>
      cases j with
      | zero => simpa using h a (List.mem_cons_self a l)
      | succ j =>
          simp only [List.getD_cons_succ]
          exact ih (fun x hx => h x (List.mem_cons_of_mem _ hx)) j

/-- The per-entry transformation sends a none entry of an all-none column
to 0: the fill value is 0, the filled column is all zeros, so min = max and
the value is left unscaled at its fill value 0. -/
theorem scale_value_all_none (col : List (Option ℚ)) (h : ∀ x ∈ col, x = none) :
    scale_value col none = 0 := by
  unfold scale_value fill_value
  rw [filterMap_id_all_none col h]
  have hfill : col.map (fun w => w.getD (if ([] : List ℚ).length = 0 then 0
      else ([] : List ℚ).sum / ([] : List ℚ).length)) = col.map (fun _ => 0) := by
    apply List.map_congr_left
    intro x hx
    rw [h x hx]
    rfl
  simp only [hfill]
  have hall : ∀ x ∈ col.map (fun _ : Option ℚ => (0 : ℚ)), x = 0 := by
    intro x hx
    rcases List.mem_map.mp hx with ⟨y, _, hy⟩
    exact hy.symm
  have hmin : listMin (col.map (fun _ : Option ℚ => (0 : ℚ))) = 0 := by
    cases hc : col.map (fun _ : Option ℚ => (0 : ℚ)) with
    | nil => rfl
    | cons x xs =>
        have hx : x = 0 := hall x (hc ▸ List.mem_cons_self x xs)
        subst hx
        exact foldl_min_all_eq xs 0 (fun y hy => hall y (hc ▸ List.mem_cons_of_mem _ hy))
  have hmax : listMax (col.map (fun _ : Option ℚ => (0 : ℚ))) = 0 := by
    cases hc : col.map (fun _ : Option ℚ => (0 : ℚ)) with
    | nil => rfl
    | cons x xs =>
        have hx : x = 0 := hall x (hc ▸ List.mem_cons_self x xs)
        subst hx
        exact foldl_max_all_eq xs 0 (fun y hy => hall y (hc ▸ List.mem_cons_of_mem _ hy))
  rw [hmin, hmax]
  simp

/-- Claim C9: normalization processes each coordinate dimension of a
rectangular flattened pose array by replacing each invalid (NaN) value with
the mean of the dimension (0 if no valid value) and then rescaling the
dimension to [0, 1] by its min and max, leaving it unscaled when min = max
(first conjunct: each output column equals the spec description of the input
column); it is a total function (deterministic, no exceptions) and an
all-invalid input falls back to all zeros (second conjunct). -/
theorem normalize_poses_spec :
    (∀ (M : List (List (Option ℚ))) (w j : ℕ),
        (∀ r ∈ M, r.length = w) → j < w →
        (normalize_poses M).map (fun r => r.getD j 0) =
          normalize_dimension_spec (colOf M j)) ∧
    (∀ M : List (List (Option ℚ)), (∀ r ∈ M, ∀ v ∈ r, v = none) →
        normalize_poses M = M.map (fun r => List.replicate r.length 0)) := by
  constructor
  · intro M w j hrect hj
    unfold normalize_poses
    rw [List.map_map, ← scale_value_map (colOf M j)]
    rw [show colOf M j = M.map (fun r => r.getD j none) from rfl, List.map_map]
    apply List.map_congr_left
    intro r hr
    have hjr : j < r.length := by rw [hrect r hr]; exact hj
    have heq := enumFrom_map_getD (fun p => scale_value (colOf M p.1) p.2) r 0 j hjr
    simpa [colOf, Function.comp, List.enum] using heq
  · intro M hM
    unfold normalize_poses
    apply List.map_congr_left
    intro r hr
    have hz : ∀ p ∈ r.enum, scale_value (colOf M p.1) p.2 = 0 := by
      intro p hp
      have hv : p.2 = none :=
        hM r hr p.2 (snd_mem_of_mem_enumFrom r 0 p hp)
      have hcol : ∀ v ∈ colOf M p.1, v = none := by
        intro v hvc
        rcases List.mem_map.mp hvc with ⟨r2, hr2, hre⟩
        rw [← hre]
        exact getD_all_none r2 (hM r2 hr2) p.1
      rw [hv]
      exact scale_value_all_none (colOf M p.1) hcol
    calc r.enum.map (fun p => scale_value (colOf M p.1) p.2)
        = r.enum.map (fun _ => 0) := List.map_congr_left hz
      _ = List.replicate r.enum.length 0 := List.map_const' r.enum 0
      _ = List.replicate r.length 0 := by rw [List.enum_length]

/-- Witness for claim C9, at a concrete 2 x 2 array with one invalid entry,
dimension 0, and at a concrete all-invalid array. -/
theorem normalize_poses_spec_w :
    (normalize_poses [[some 1, none], [some 3, some 5]]).map (fun r => r.getD 0 0) =
      normalize_dimension_spec (colOf [[some 1, none], [some 3, some 5]] 0) ∧
    normalize_poses [[none, none], [none]] =
      [[(0 : ℚ), 0], [0]] := by
  constructor
  · exact normalize_poses_spec.1 [[some 1, none], [some 3, some 5]] 2 0
      (by intro r hr; simp at hr; rcases hr with h | h <;> simp [h]) (by norm_num)
  · have := normalize_poses_spec.2 [[none, none], [none]]
      (by intro r hr v hv; simp at hr; rcases hr with h | h <;> subst h <;> simpa using hv)
    simpa using this

/-! Magic trick scoring (magic_tricks.py).  Pose windows here are raw
extraction output and contain no NaN entries (confidences are real numbers;
the NaN sentinel is only introduced by the visibility filter of the
comparison pipeline, which the trick scorer does not apply), so np.nanmean
is the ordinary mean and the all-finite guard of the openness computation
always passes. -/

/-- HandState from magic_tricks.py lines 15-23. -/
structure HandState where
  name : String
  hand : String
  position : String
  finger_configuration : String
  visibility_required : ℚ := 7 / 10
  tolerance : ℚ := 3 / 20

/-- TrickStep from magic_tricks.py lines 26-33. -/
structure TrickStep where
  order : ℕ
  duration_frames : ℕ
  hand_states : List HandState
  description : String
  key_points : List String

/-- Mean of a list of rationals (np.nanmean of a NaN-free nonempty column). -/
def mean (l : List ℚ) : ℚ := l.sum / l.length

/-- Landmark access poses[frame][i]; the default is never reached for the
well-formed 33-landmark frames the scorer receives. -/
def landmark (fr : RawFrame) (i : ℕ) : Landmark := fr.getD i (0, 0, 0)

/-- MagicTrickScorer wrist index: RIGHT_WRIST = 16, LEFT_WRIST = 15. -/
def wrist_index (hand : String) : ℕ := if hand = "right" then 16 else 15

/-- MagicTrickScorer hand landmark indices: list(range(16, 23)); the source
uses the same indices for both RIGHT_HAND_LANDMARKS and
LEFT_HAND_LANDMARKS. -/
def hand_landmarks : List ℕ := [16, 17, 18, 19, 20, 21, 22]

/-- Mean confidence of the tracked wrist over a pose window (the
visibility_avg entry of extract_hand_position). -/
def visibility_avg_of (poses : RawSeq) (hand : String) : ℚ :=
  mean (poses.map (fun fr => (landmark fr (wrist_index hand)).2.2))

/-- classify_position from magic_tricks.py lines 149-162 (the leading
underscore of the source name is dropped; the locals mouth_y, neck_y,
shoulder_x are inlined at their single use sites).  Note that the
chest-level test compares the y coordinate with a mean x coordinate of the
right shoulder, exactly as the source does. -/
def classify_position (x y : ℚ) (poses : RawSeq) : String :=
  if y < mean (poses.map (fun fr => (landmark fr 9).2.1)) - 1 / 10 then "above_head"
  else if y < mean (poses.map (fun fr => (landmark fr 1).2.1)) - 1 / 20 then "face_level"
  else if y < mean (poses.map (fun fr => (landmark fr 12).1)) + 1 / 5 then "chest_level"
  else "waist_level"

/-- The per-frame spread of calculate_hand_openness (magic_tricks.py lines
164-185): half the sum of the x extent and y extent of the bounding box of
the hand landmarks.  The all-finite frame guard of the source always passes
on NaN-free input, so every frame contributes its spread. -/
def hand_spread (fr : RawFrame) : ℚ :=
  ((listMax (hand_landmarks.map (fun i => (landmark fr i).1)) -
      listMin (hand_landmarks.map (fun i => (landmark fr i).1))) +
    (listMax (hand_landmarks.map (fun i => (landmark fr i).2.1)) -
      listMin (hand_landmarks.map (fun i => (landmark fr i).2.1)))) / 2

/-- The aggregation of calculate_hand_openness: 0.5 when no frame
contributed, otherwise the average spread divided by the empirical 0.3 and
clamped to [0, 1]. -/
def hand_openness (poses : RawSeq) : ℚ :=
  if (poses.map hand_spread).length = 0 then 1 / 2
  else min 1 (max 0 (mean (poses.map hand_spread) / (3 / 10)))

/-- The position metrics of extract_hand_position (magic_tricks.py lines
111-147); the trajectory_length entry is omitted as it requires real square
roots and is never read by the scoring functions. -/
structure HandMetrics where
  avg_x : ℚ
  avg_y : ℚ
  position : String
  openness : ℚ
  visibility_avg : ℚ

/-- extract_hand_position from magic_tricks.py lines 111-147: None on an
empty window, otherwise the averaged wrist position, its coarse position
class, the hand openness and the mean wrist visibility. -/
def extract_hand_position (poses : RawSeq) (hand : String) : Option HandMetrics :=
  if poses.length = 0 then none
  else
    some { avg_x := mean (poses.map (fun fr => (landmark fr (wrist_index hand)).1)),
           avg_y := mean (poses.map (fun fr => (landmark fr (wrist_index hand)).2.1)),
           position := classify_position
             (mean (poses.map (fun fr => (landmark fr (wrist_index hand)).1)))
             (mean (poses.map (fun fr => (landmark fr (wrist_index hand)).2.1))) poses,
           openness := hand_openness poses,
           visibility_avg := visibility_avg_of poses hand }

/-- score_hand_state from magic_tricks.py lines 259-286: start at 100,
deduct 30 for a wrong open/closed configuration, 25 for a wrong
pinched/spread configuration, a further 20 for a position mismatch, floor
at 0. -/
def score_hand_state (metrics : HandMetrics) (hs : HandState) : ℚ :=
  let score : ℚ := 100
  let score :=
    if hs.finger_configuration = "open" then
      (if metrics.openness < 3 / 5 then score - 30 else score)
    else if hs.finger_configuration = "closed" then
      (if metrics.openness > 2 / 5 then score - 30 else score)
    else if hs.finger_configuration = "pinched" then
      (if metrics.openness < 1 / 5 ∨ metrics.openness > 7 / 10 then score - 25 else score)
    else if hs.finger_configuration = "spread" then
      (if metrics.openness < 7 / 10 then score - 25 else score)
    else score
  let score := if hs.position ≠ metrics.position then score - 20 else score
  max 0 score

/-- The per-hand-state branch of score_step (magic_tricks.py lines 213-241):
0 when the window has no pose data, the fixed partial credit 20 when the mean
wrist visibility is below the requirement, the configuration/position score
otherwise. -/
def evaluate_hand_state (poses : RawSeq) (hs : HandState) : ℚ :=
  match extract_hand_position poses hs.hand with
  | none => 0
  | some m =>
      if m.visibility_avg < hs.visibility_required then 20
      else score_hand_state m hs

/-- The avg_score of score_step: arithmetic mean of the per-hand-state
scores, 0 when the step requires no hand state. -/
def step_state_score (poses : RawSeq) (step : TrickStep) : ℚ :=
  if (step.hand_states.map (evaluate_hand_state poses)).length = 0 then 0
  else mean (step.hand_states.map (evaluate_hand_state poses))

/-- The scoring part of the details dictionary of score_step; the per-hand
diagnostics are abstracted to their scores. -/
structure StepDetail where
  step_order : ℕ
  hand_scores : List ℚ
  duration_penalty : ℚ
  expected_frames : ℕ
  actual_frames : ℕ

/-- score_step from magic_tricks.py lines 195-257: (0, error details) on an
empty window; otherwise the mean hand-state score minus the duration penalty
min(20, 100 * |actual - expected| / (expected + 1)), floored at 0. -/
def score_step (user_poses : RawSeq) (step : TrickStep) : ℚ × Option StepDetail :=
  if user_poses.length = 0 then (0, none)
  else
    (max 0 (step_state_score user_poses step -
        min 20 (|(user_poses.length : ℚ) - (step.duration_frames : ℚ)| /
          ((step.duration_frames : ℚ) + 1) * 100)),
     some { step_order := step.order,
            hand_scores := step.hand_states.map (evaluate_hand_state user_poses),
            duration_penalty := min 20 (|(user_poses.length : ℚ) - (step.duration_frames : ℚ)| /
              ((step.duration_frames : ℚ) + 1) * 100),
            expected_frames := step.duration_frames,
            actual_frames := user_poses.length })

/-- A hand-state requirement for the scenario of claim C6: open right hand at
waist level (akin to the coin-vanish steps of the source). -/
def demo_hand_state : HandState :=
  { name := "palm_open", hand := "right", position := "waist_level",
    finger_configuration := "open", visibility_required := 7 / 10,
    tolerance := 3 / 20 }

/-- A 33-landmark pose frame on which demo_hand_state scores the full 100:
the right wrist (index 16) sits at y = 4/5 (waist level for the neck, mouth
and shoulder references at indices 1, 9, 12), the hand landmarks 16-22 are
spread for an openness of 2/3, and the wrist confidence is 9/10. -/
def demo_frame : RawFrame :=
  [((1 : ℚ) / 2, (1 : ℚ) / 2, (1 : ℚ)),
   ((1 : ℚ) / 2, (7 : ℚ) / 20, (1 : ℚ)),
   ((1 : ℚ) / 2, (1 : ℚ) / 2, (1 : ℚ)),
   ((1 : ℚ) / 2, (1 : ℚ) / 2, (1 : ℚ)),
   ((1 : ℚ) / 2, (1 : ℚ) / 2, (1 : ℚ)),
   ((1 : ℚ) / 2, (1 : ℚ) / 2, (1 : ℚ)),
   ((1 : ℚ) / 2, (1 : ℚ) / 2, (1 : ℚ)),
   ((1 : ℚ) / 2, (1 : ℚ) / 2, (1 : ℚ)),
   ((1 : ℚ) / 2, (1 : ℚ) / 2, (1 : ℚ)),
   ((1 : ℚ) / 2, (3 : ℚ) / 10, (1 : ℚ)),
   ((1 : ℚ) / 2, (1 : ℚ) / 2, (1 : ℚ)),
   ((1 : ℚ) / 2, (1 : ℚ) / 2, (1 : ℚ)),
   ((1 : ℚ) / 2, (1 : ℚ) / 2, (1 : ℚ)),
   ((1 : ℚ) / 2, (1 : ℚ) / 2, (1 : ℚ)),
   ((1 : ℚ) / 2, (1 : ℚ) / 2, (1 : ℚ)),
   ((1 : ℚ) / 2, (1 : ℚ) / 2, (1 : ℚ)),
   ((1 : ℚ) / 5, (4 : ℚ) / 5, (9 : ℚ) / 10),
   ((1 : ℚ) / 2, (4 : ℚ) / 5, (1 : ℚ)),
   ((7 : ℚ) / 20, (9 : ℚ) / 10, (1 : ℚ)),
   ((7 : ℚ) / 20, (9 : ℚ) / 10, (1 : ℚ)),
   ((7 : ℚ) / 20, (9 : ℚ) / 10, (1 : ℚ)),
   ((7 : ℚ) / 20, (9 : ℚ) / 10, (1 : ℚ)),
   ((7 : ℚ) / 20, (9 : ℚ) / 10, (1 : ℚ)),
   ((1 : ℚ) / 2, (1 : ℚ) / 2, (1 : ℚ)),
   ((1 : ℚ) / 2, (1 : ℚ) / 2, (1 : ℚ)),
   ((1 : ℚ) / 2, (1 : ℚ) / 2, (1 : ℚ)),
   ((1 : ℚ) / 2, (1 : ℚ) / 2, (1 : ℚ)),
   ((1 : ℚ) / 2, (1 : ℚ) / 2, (1 : ℚ)),
   ((1 : ℚ) / 2, (1 : ℚ) / 2, (1 : ℚ)),
   ((1 : ℚ) / 2, (1 : ℚ) / 2, (1 : ℚ)),
   ((1 : ℚ) / 2, (1 : ℚ) / 2, (1 : ℚ)),
   ((1 : ℚ) / 2, (1 : ℚ) / 2, (1 : ℚ)),
   ((1 : ℚ) / 2, (1 : ℚ) / 2, (1 : ℚ))]

/-- The StepSpec of the scenario of claim C6: expected duration 10 frames,
one perfect hand state. -/
def demo_step : TrickStep :=
  { order := 1, duration_frames := 10, hand_states := [demo_hand_state],
    description := "Show open palm with coin visible", key_points := [] }

/-- Claim C5: for every hand-state requirement and every non-empty pose
window, if the mean visibility of the tracked wrist is below the
requirement's minimum visibility, the hand-state evaluation returns exactly
the fixed partial-credit score 20, independent of the position zone and
finger configuration (both are arbitrary here), skipping the shape and
position checks. -/
theorem low_visibility_partial_credit (w : RawSeq) (hs : HandState)
    (hw : w ≠ []) (hvis : visibility_avg_of w hs.hand < hs.visibility_required) :
    evaluate_hand_state w hs = 20 := by
  have hlen : ¬ w.length = 0 := fun h => hw (List.length_eq_zero.mp h)
  cases hext : extract_hand_position w hs.hand with
  | none =>
      unfold extract_hand_position at hext
      rw [if_neg hlen] at hext
      simp at hext
  | some m =>
      have hm : m.visibility_avg = visibility_avg_of w hs.hand := by
        unfold extract_hand_position at hext
        rw [if_neg hlen] at hext
        have h2 := Option.some.inj hext
        rw [← h2]
      unfold evaluate_hand_state
      rw [hext]
      show (if m.visibility_avg < hs.visibility_required then (20 : ℚ)
        else score_hand_state m hs) = 20
      rw [hm, if_pos hvis]

/-- Witness for claim C5: a one-frame window whose wrist confidence 1/10 is
below the required 7/10 scores exactly 20. -/
theorem low_visibility_partial_credit_w :
    evaluate_hand_state [List.replicate 33 ((1 : ℚ) / 2, (1 : ℚ) / 2, (1 : ℚ) / 10)]
      demo_hand_state = 20 := by
  refine low_visibility_partial_credit _ _ (List.cons_ne_nil _ _) ?_
  have h16 : landmark (List.replicate 33 ((1 : ℚ) / 2, (1 : ℚ) / 2, (1 : ℚ) / 10))
      (wrist_index "right") = ((1 : ℚ) / 2, (1 : ℚ) / 2, (1 : ℚ) / 10) := by
    unfold landmark
    rw [List.getD_eq_getElem _ _ (by simp [wrist_index])]
    rw [List.getElem_replicate]
  norm_num [visibility_avg_of, mean, h16, demo_hand_state]

/-- The mean of n copies of a value is that value. -/
theorem mean_replicate (n : ℕ) (hn : n ≠ 0) (q : ℚ) :
    mean (List.replicate n q) = q := by
  unfold mean
  rw [List.sum_replicate, List.length_replicate, nsmul_eq_mul, mul_comm,
    mul_div_assoc, div_self (Nat.cast_ne_zero.mpr hn), mul_one]

/-- A window of any positive number of copies of the demo frame satisfies
the demo hand state perfectly: visibility 9/10 at least the required 7/10,
openness 2/3 at least the 3/5 an open configuration needs, wrist at waist
level as required, so no deduction applies. -/
theorem demo_eval (n : ℕ) (hn : n ≠ 0) :
    evaluate_hand_state (List.replicate n demo_frame) demo_hand_state = 100 := by
  have hlen : ¬ (List.replicate n demo_frame).length = 0 := by simp [hn]
  have hL1 : landmark demo_frame 1 = ((1 : ℚ) / 2, (7 : ℚ) / 20, (1 : ℚ)) := rfl
  have hL9 : landmark demo_frame 9 = ((1 : ℚ) / 2, (3 : ℚ) / 10, (1 : ℚ)) := rfl
  have hL12 : landmark demo_frame 12 = ((1 : ℚ) / 2, (1 : ℚ) / 2, (1 : ℚ)) := rfl
  have hL16 : landmark demo_frame 16 = ((1 : ℚ) / 5, (4 : ℚ) / 5, (9 : ℚ) / 10) := rfl
  have hL17 : landmark demo_frame 17 = ((1 : ℚ) / 2, (4 : ℚ) / 5, (1 : ℚ)) := rfl
  have hL18 : landmark demo_frame 18 = ((7 : ℚ) / 20, (9 : ℚ) / 10, (1 : ℚ)) := rfl
  have hL19 : landmark demo_frame 19 = ((7 : ℚ) / 20, (9 : ℚ) / 10, (1 : ℚ)) := rfl
  have hL20 : landmark demo_frame 20 = ((7 : ℚ) / 20, (9 : ℚ) / 10, (1 : ℚ)) := rfl
  have hL21 : landmark demo_frame 21 = ((7 : ℚ) / 20, (9 : ℚ) / 10, (1 : ℚ)) := rfl
  have hL22 : landmark demo_frame 22 = ((7 : ℚ) / 20, (9 : ℚ) / 10, (1 : ℚ)) := rfl
  have hwr : wrist_index "right" = 16 := rfl
  have hax : mean ((List.replicate n demo_frame).map
      (fun fr => (landmark fr (wrist_index "right")).1)) = 1 / 5 := by
    rw [List.map_replicate, mean_replicate n hn, hwr, hL16]
  have hay : mean ((List.replicate n demo_frame).map
      (fun fr => (landmark fr (wrist_index "right")).2.1)) = 4 / 5 := by
    rw [List.map_replicate, mean_replicate n hn, hwr, hL16]
  have hvis : visibility_avg_of (List.replicate n demo_frame) "right" = 9 / 10 := by
    unfold visibility_avg_of
    rw [List.map_replicate, mean_replicate n hn, hwr, hL16]
  have hspread : hand_spread demo_frame = 1 / 5 := by
    unfold hand_spread hand_landmarks
    simp only [List.map_cons, List.map_nil, hL16, hL17, hL18, hL19, hL20, hL21, hL22]
    norm_num [listMin, listMax, min_def, max_def]
  have hopen : hand_openness (List.replicate n demo_frame) = 2 / 3 := by
    unfold hand_openness
    rw [List.map_replicate, List.length_replicate, if_neg hn, mean_replicate n hn, hspread]
    norm_num [min_def, max_def]
  have hpos : classify_position (1 / 5) (4 / 5) (List.replicate n demo_frame) =
      "waist_level" := by
    unfold classify_position
    rw [List.map_replicate, mean_replicate n hn, List.map_replicate,
      mean_replicate n hn, List.map_replicate, mean_replicate n hn, hL9, hL1, hL12]
    norm_num
  have hext : extract_hand_position (List.replicate n demo_frame) "right" =
      some { avg_x := 1 / 5, avg_y := 4 / 5, position := "waist_level",
             openness := 2 / 3, visibility_avg := 9 / 10 } := by
    unfold extract_hand_position
    rw [if_neg hlen, hax, hay, hvis, hopen, hpos]
  unfold evaluate_hand_state
  rw [show demo_hand_state.hand = "right" from rfl, hext]
  show (if (9 : ℚ) / 10 < demo_hand_state.visibility_required then (20 : ℚ)
    else score_hand_state
      { avg_x := 1 / 5, avg_y := 4 / 5, position := "waist_level",
        openness := 2 / 3, visibility_avg := 9 / 10 } demo_hand_state) = 100
  rw [if_neg (by norm_num [demo_hand_state])]
  norm_num [score_hand_state, demo_hand_state]

/-- Claim C6: for every step with expected duration e frames and every
non-empty pose window of actual length a, the duration penalty equals
min(20, 100 * abs(a - e) / (e + 1)) and the final step score equals
max(0, step_score - duration_penalty); in particular, a step with a perfect
hand state, expected duration 10 and actual duration 10 scores 100, while
the same step with actual duration 30 incurs penalty
min(20, 100 * 20 / 11) = 20 and scores 80. -/
theorem score_step_formula :
    (∀ (w : RawSeq) (step : TrickStep), w ≠ [] →
        score_step w step =
          (max 0 (step_state_score w step -
              min 20 (100 * |(w.length : ℚ) - (step.duration_frames : ℚ)| /
                ((step.duration_frames : ℚ) + 1))),
           some { step_order := step.order,
                  hand_scores := step.hand_states.map (evaluate_hand_state w),
                  duration_penalty := min 20
                    (100 * |(w.length : ℚ) - (step.duration_frames : ℚ)| /
                      ((step.duration_frames : ℚ) + 1)),
                  expected_frames := step.duration_frames,
                  actual_frames := w.length })) ∧
    score_step (List.replicate 10 demo_frame) demo_step =
      (100, some { step_order := 1, hand_scores := [100], duration_penalty := 0,
                   expected_frames := 10, actual_frames := 10 }) ∧
    score_step (List.replicate 30 demo_frame) demo_step =
      (80, some { step_order := 1, hand_scores := [100], duration_penalty := 20,
                  expected_frames := 10, actual_frames := 30 }) := by
  have harith : ∀ a e : ℚ, |a - e| / (e + 1) * 100 = 100 * |a - e| / (e + 1) := by
    intro a e; ring
  refine ⟨?_, ?_, ?_⟩
  · intro w step hw
    have hlen : ¬ w.length = 0 := fun h => hw (List.length_eq_zero.mp h)
    unfold score_step
    rw [if_neg hlen, harith]
  · have h100 := demo_eval 10 (by norm_num)
    unfold score_step
    rw [if_neg (by simp)]
    simp only [List.length_replicate, demo_step, step_state_score,
      List.map_cons, List.map_nil, h100]
    norm_num [mean, Prod.ext_iff, StepDetail.mk.injEq, min_def, max_def]
  · have h100 := demo_eval 30 (by norm_num)
    unfold score_step
    rw [if_neg (by simp)]
    simp only [List.length_replicate, demo_step, step_state_score,
      List.map_cons, List.map_nil, h100]
    norm_num [mean, Prod.ext_iff, StepDetail.mk.injEq, min_def, max_def]

/-- Witness for claim C6: the general formula instantiated at the scenario
window of 30 frames and the demo step. -/
theorem score_step_formula_w :
    score_step (List.replicate 30 demo_frame) demo_step =
      (max 0 (step_state_score (List.replicate 30 demo_frame) demo_step -
          min 20 (100 * |((List.replicate 30 demo_frame).length : ℚ) -
            (demo_step.duration_frames : ℚ)| / ((demo_step.duration_frames : ℚ) + 1))),
       some { step_order := demo_step.order,
              hand_scores := demo_step.hand_states.map
                (evaluate_hand_state (List.replicate 30 demo_frame)),
              duration_penalty := min 20
                (100 * |((List.replicate 30 demo_frame).length : ℚ) -
                  (demo_step.duration_frames : ℚ)| / ((demo_step.duration_frames : ℚ) + 1)),
              expected_frames := demo_step.duration_frames,
              actual_frames := (List.replicate 30 demo_frame).length }) :=
  score_step_formula.1 (List.replicate 30 demo_frame) demo_step (by simp)

/-! Sign sequencing (translator/sign_sequencer.py, class SignSequencer). -/

/-- SignSequencer.TRANSITION_DURATION = 0.3 seconds. -/
def transition_duration : ℚ := 3 / 10

/-- SignSequencer.DEFAULT_SIGN_DURATION = 1.0 seconds. -/
def default_sign_duration : ℚ := 1

/-- SignSequencer.NEGATION_HOLD = 0.2 seconds. -/
def negation_hold : ℚ := 1 / 5

/-- SignSequencer.QUESTION_HOLD = 0.3 seconds. -/
def question_hold : ℚ := 3 / 10

/-- SignSequencer.EMOTION_MODIFIER = 1.2. -/
def emotion_modifier : ℚ := 6 / 5

/-- A resolved sign entry as consumed by calculate_timing: the dictionary
fields read by the timing computation.  Every entry produced by the lookup
stage carries a gloss, so the .get defaults of the source are never taken
and plain fields suffice. -/
structure SignEntry where
  gloss : String
  sign_type : String
  modifiers : List String
  fallback : Option String
  fingerspell_sequence : List String

/-- The type_durations table of calculate_sign_duration (sign_sequencer.py
lines 215-226). -/
def type_durations : List (String × ℚ) :=
  [("noun", 4 / 5), ("verb", 1), ("adjective", 7 / 10), ("adverb", 3 / 5),
   ("pronoun", 1 / 2), ("time", 3 / 5), ("question", 6 / 5),
   ("classifier", 3 / 2), ("fingerspell", 2 / 5), ("pointing", 2 / 5)]

/-- Python substring containment (the in operator on strings). -/
def contains_str (s pat : String) : Bool :=
  s.toList.tails.any (fun t => pat.toList.isPrefixOf t)

/-- calculate_sign_duration from sign_sequencer.py lines 206-245 (leading
underscore dropped): base duration by sign type (1.0 when the type is
unknown), extra holds for negation and questions, the emotion modifier for
emotional adjectives and adverbs, and the per-letter override for
fingerspelling fallbacks. -/
def calculate_sign_duration (sign : SignEntry) : ℚ :=
  let d1 := (type_durations.lookup sign.sign_type).getD 1
  let d2 := if contains_str sign.gloss "NOT" ∨ "negation" ∈ sign.modifiers
    then d1 + negation_hold else d1
  let d3 := if sign.sign_type = "question" then d2 + question_hold else d2
  let d4 := if (sign.sign_type = "adjective" ∨ sign.sign_type = "adverb") ∧
      (contains_str sign.gloss "HAPPY" ∨ contains_str sign.gloss "SAD" ∨
        contains_str sign.gloss "ANGRY")
    then d3 * emotion_modifier else d3
  if sign.fallback = some "fingerspell"
    then (sign.fingerspell_sequence.length : ℚ) * default_sign_duration * (2 / 5)
    else d4

/-- One entry of the timeline of calculate_timing (sign_sequencer.py lines
187-194). -/
structure TimelineEntry where
  gloss : String
  start_time : ℚ
  end_time : ℚ
  duration : ℚ
  transition_in : ℚ
  transition_out : ℚ

/-- The loop of calculate_timing (sign_sequencer.py lines 176-197): i is the
index of the first remaining entry, t the running current_time, n the total
number of entries; a transition gap is added before every entry except the
first, and the transitions in and out of each entry are recorded. -/
def timingAux (n : ℕ) : ℕ → ℚ → List SignEntry → List TimelineEntry × ℚ
  | _, t, [] => ([], t)
  | i, t, s :: rest =>
      let d := calculate_sign_duration s
      let t1 := if 0 < i then t + transition_duration else t
      (({ gloss := s.gloss, start_time := t1, end_time := t1 + d, duration := d,
          transition_in := if 0 < i then transition_duration else 0,
          transition_out := if i < n - 1 then transition_duration else 0 } :
            TimelineEntry) :: (timingAux n (i + 1) (t1 + d) rest).1,
        (timingAux n (i + 1) (t1 + d) rest).2)

/-- The result dictionary of calculate_timing (sign_sequencer.py lines
199-204). -/
structure TimingResult where
  total_duration : ℚ
  timeline : List TimelineEntry
  sign_count : ℕ
  average_sign_duration : ℚ

/-- calculate_timing from sign_sequencer.py lines 170-204. -/
def calculate_timing (sign_sequence : List SignEntry) : TimingResult :=
  { total_duration := (timingAux sign_sequence.length 0 0 sign_sequence).2,
    timeline := (timingAux sign_sequence.length 0 0 sign_sequence).1,
    sign_count := sign_sequence.length,
    average_sign_duration :=
      if (timingAux sign_sequence.length 0 0 sign_sequence).1.length = 0 then 0
      else ((timingAux sign_sequence.length 0 0 sign_sequence).1.map
          (fun e => e.duration)).sum /
        ((timingAux sign_sequence.length 0 0 sign_sequence).1.length : ℚ) }

/-- The timeline has one entry per sign. -/
theorem timingAux_length :
    ∀ (signs : List SignEntry) (n i : ℕ) (t : ℚ),
      (timingAux n i t signs).1.length = signs.length := by
  intro signs
  induction signs with
  | nil => intro n i t; rfl
  | cons s rest ih =>
      intro n i t
      simp only [timingAux, List.length_cons]
      rw [ih]

/-- The timeline records each sign's computed duration. -/
theorem timingAux_durations :
    ∀ (signs : List SignEntry) (n i : ℕ) (t : ℚ),
      (timingAux n i t signs).1.map (fun e => e.duration) =
        signs.map calculate_sign_duration := by
  intro signs
  induction signs with
  | nil => intro n i t; rfl
  | cons s rest ih =>
      intro n i t
      simp only [timingAux, List.map_cons]
      rw [ih]

/-- Total time of the tail of the loop: every remaining entry contributes a
transition gap plus its duration. -/
theorem timingAux_total :
    ∀ (signs : List SignEntry) (n i : ℕ) (t : ℚ), 0 < i →
      (timingAux n i t signs).2 =
        t + (signs.map calculate_sign_duration).sum +
          signs.length * transition_duration := by
  intro signs
  induction signs with
  | nil => intro n i t hi; simp [timingAux]
  | cons s rest ih =>
      intro n i t hi
      simp only [timingAux, hi, if_true]
      rw [ih n (i + 1) _ (Nat.succ_pos i)]
      simp only [List.map_cons, List.sum_cons, List.length_cons]
      push_cast
      ring

/-- Every entry of the tail of the loop carries the fixed incoming
transition gap. -/
theorem timingAux_count :
    ∀ (signs : List SignEntry) (n i : ℕ) (t : ℚ), 0 < i →
      ((timingAux n i t signs).1.countP
        (fun e => decide (e.transition_in = transition_duration))) =
        signs.length := by
  intro signs
  induction signs with
  | nil => intro n i t hi; rfl
  | cons s rest ih =>
      intro n i t hi
      simp only [timingAux, hi, if_true, List.countP_cons]
      rw [ih n (i + 1) _ (Nat.succ_pos i)]
      simp [List.length_cons]

/-- The last element of a cons with a nonempty tail is the last element of
the tail. -/
theorem getLast?_cons_of_ne_nil {α : Type} (a : α) (l : List α) (h : l ≠ []) :
    (a :: l).getLast? = l.getLast? := by
  cases l with
  | nil => exact absurd rfl h
  | cons b m => rw [List.getLast?_cons_cons]

/-- One unfolding step of the timeline component of the loop. -/
theorem timingAux_fst_cons (n i : ℕ) (t : ℚ) (s : SignEntry) (rest : List SignEntry) :
    (timingAux n i t (s :: rest)).1 =
      ({ gloss := s.gloss,
         start_time := if 0 < i then t + transition_duration else t,
         end_time := (if 0 < i then t + transition_duration else t) +
           calculate_sign_duration s,
         duration := calculate_sign_duration s,
         transition_in := if 0 < i then transition_duration else 0,
         transition_out := if i < n - 1 then transition_duration else 0 } :
          TimelineEntry) ::
        (timingAux n (i + 1)
          ((if 0 < i then t + transition_duration else t) +
            calculate_sign_duration s) rest).1 := rfl

/-- The outgoing transition of the last timeline entry depends on whether
its index reaches n - 1. -/
theorem timingAux_last :
    ∀ (signs : List SignEntry) (n i : ℕ) (t : ℚ), signs ≠ [] →
      ((timingAux n i t signs).1.getLast?.map (fun e => e.transition_out)) =
        some (if i + signs.length - 1 < n - 1 then transition_duration else 0) := by
  intro signs
  induction signs with
  | nil => intro n i t h; exact absurd rfl h
  | cons s rest ih =>
      intro n i t _
      cases rest with
      | nil => simp [timingAux]
      | cons s2 rest2 =>
          have htail : (timingAux n (i + 1)
              ((if 0 < i then t + transition_duration else t) +
                calculate_sign_duration s) (s2 :: rest2)).1 ≠ [] := by
            intro h
            have := timingAux_length (s2 :: rest2) n (i + 1)
              ((if 0 < i then t + transition_duration else t) +
                calculate_sign_duration s)
            rw [h] at this
            simp at this
          have hidx : i + 1 + (s2 :: rest2).length - 1 = i + (s :: s2 :: rest2).length - 1 := by
            simp only [List.length_cons]
            omega
          rw [timingAux_fst_cons, getLast?_cons_of_ne_nil _ _ htail,
            ih n (i + 1) _ (List.cons_ne_nil _ _), hidx]

/-- One unfolding step of the running-time component of the loop. -/
theorem timingAux_snd_cons (n i : ℕ) (t : ℚ) (s : SignEntry) (rest : List SignEntry) :
    (timingAux n i t (s :: rest)).2 =
      (timingAux n (i + 1)
        ((if 0 < i then t + transition_duration else t) +
          calculate_sign_duration s) rest).2 := rfl

/-- Claim C8: for every ordered list of k resolved sign entries, the computed
timeline has k entries and contains exactly k - 1 transition gaps: every
entry but the first carries the fixed incoming gap, the first entry has no
incoming gap and the last no outgoing gap; and the reported total duration
equals the sum of the k entry durations plus the sum of the k - 1 gaps,
i.e. (k - 1) times the fixed transition duration. -/
theorem calculate_timing_gaps (signs : List SignEntry) :
    (calculate_timing signs).timeline.length = signs.length ∧
    (calculate_timing signs).timeline.countP
      (fun e => decide (e.transition_in = transition_duration)) = signs.length - 1 ∧
    ((calculate_timing signs).timeline.head?.map (fun e => e.transition_in)).getD 0 = 0 ∧
    ((calculate_timing signs).timeline.getLast?.map (fun e => e.transition_out)).getD 0 = 0 ∧
    (calculate_timing signs).total_duration =
      ((calculate_timing signs).timeline.map (fun e => e.duration)).sum +
        ((signs.length - 1 : ℕ) : ℚ) * transition_duration := by
  refine ⟨timingAux_length signs signs.length 0 0, ?_, ?_, ?_, ?_⟩
  · cases signs with
    | nil => rfl
    | cons s rest =>
        show ((timingAux (s :: rest).length 0 0 (s :: rest)).1.countP
          (fun e => decide (e.transition_in = transition_duration))) = (s :: rest).length - 1
        rw [timingAux_fst_cons, List.countP_cons,
          timingAux_count rest (s :: rest).length 1 _ (Nat.succ_pos 0)]
        norm_num [transition_duration]
  · cases signs with
    | nil => rfl
    | cons s rest =>
        show (((timingAux (s :: rest).length 0 0 (s :: rest)).1.head?.map
          (fun e => e.transition_in)).getD 0) = 0
        rw [timingAux_fst_cons]
        simp
  · cases signs with
    | nil => rfl
    | cons s rest =>
        have h := timingAux_last (s :: rest) (s :: rest).length 0 0 (List.cons_ne_nil _ _)
        show (((timingAux (s :: rest).length 0 0 (s :: rest)).1.getLast?.map
          (fun e => e.transition_out)).getD 0) = 0
        rw [h]
        simp
  · cases signs with
    | nil => simp [calculate_timing, timingAux]
    | cons s rest =>
        show (timingAux (s :: rest).length 0 0 (s :: rest)).2 =
          ((timingAux (s :: rest).length 0 0 (s :: rest)).1.map
            (fun e => e.duration)).sum +
            (((s :: rest).length - 1 : ℕ) : ℚ) * transition_duration
        rw [timingAux_durations, timingAux_snd_cons,
          timingAux_total rest (s :: rest).length 1 _ (Nat.succ_pos 0)]
        simp only [List.map_cons, List.sum_cons, List.length_cons,
          Nat.lt_irrefl, if_false, Nat.add_sub_cancel, zero_add]

end Signphony
